import Mathlib

/-!
Verification of `segmenta_kml.py` (repository victorsantiago/odsb_ordenamento).

The program splits one KML document into one KML file per Placemark.  We give a
shallow embedding of its data model and of the four pure functions
(`sanitize_filename`, `has_geometry`, `preferred_name`, `wrap_document`) plus the
orchestrator `segment_kml`, and prove the frozen claims about them.

XML element trees (Python `xml.etree.ElementTree`) are modelled by `Element`:
a tag, an attribute list, optional text, and a list of child elements, in
document order.  All elements the program inspects live in the single KML
namespace, so tags are modelled by their local names ("Placemark", "name", …);
attribute names ("name" on `Data` / `SimpleData`) carry no namespace in the
source either.  Python `None` text is `Option.none`; document order of
`findall` results is preorder over the tree.
-/

/-- An XML element: tag, attributes (in order), text, children (in order).
Models `xml.etree.ElementTree.Element` for the fragment of XML this program
inspects. -/
inductive Element : Type where
  | mk (tag : String) (attrs : List (String × String)) (text : Option String)
       (children : List Element)

/-- The element's tag. -/
def Element.tag : Element → String
  | .mk t _ _ _ => t

/-- The element's attribute list. -/
def Element.attrs : Element → List (String × String)
  | .mk _ a _ _ => a

/-- The element's text (`None` in Python is `none`). -/
def Element.text : Element → Option String
  | .mk _ _ x _ => x

/-- The element's children, in document order. -/
def Element.children : Element → List Element
  | .mk _ _ _ cs => cs

mutual
/-- All proper descendants of an element, in document (preorder) order: this is
what `el.findall(".//kml:T")` iterates over before filtering by tag `T`. -/
def descendants : Element → List Element
  | .mk _ _ _ cs => descList cs
/-- Preorder listing of a forest: each root followed by its descendants. -/
def descList : List Element → List Element
  | [] => []
  | e :: es => e :: descendants e ++ descList es
end

/-- Models `el.find("kml:T", NS)`: the first direct child with tag `T`, if any. -/
def findChild (e : Element) (t : String) : Option Element :=
  e.children.find? (fun c => c.tag = t)

/-- Models `el.findall(".//kml:T", NS)`: all descendants with tag `T`, document order. -/
def findAllDesc (e : Element) (t : String) : List Element :=
  (descendants e).filter (fun c => c.tag = t)

/-- Models `el.get(k)`: attribute lookup (first binding wins, as in a dict built from
unique attribute names). -/
def getAttr (e : Element) (k : String) : Option String :=
  (e.attrs.find? (fun kv => kv.1 = k)).map (fun kv => kv.2)

/-- Python regex `\s` / `str.strip()` whitespace, over the ASCII range the
inputs use: space, tab, newline, carriage return, vertical tab, form feed. -/
def pyIsSpace (c : Char) : Bool :=
  c = ' ' || c = '\t' || c = '\n' || c = '\r' || c = '\u000b' || c = '\u000c'

/-- Python regex `\w` (alphanumeric or underscore).  Python's `re.UNICODE`
additionally counts non-ASCII letters and digits as word characters; the claims
proved below do not depend on the exact extent of the class, only on membership
of `_` and on its complement being replaced. -/
def pyIsWord (c : Char) : Bool :=
  c.isAlphanum || c = '_'

/-- Python `str.strip()`: drop leading and trailing whitespace. -/
def pyStrip (s : String) : String :=
  String.mk (((s.toList.dropWhile pyIsSpace).reverse.dropWhile pyIsSpace).reverse)

/-- Python `str.upper()` on the ASCII metadata keys the program compares. -/
def pyUpper (s : String) : String :=
  String.mk (s.toList.map Char.toUpper)

/-- Models `re.sub(r"\s+", "_", ·)` on a character list: each maximal run of
whitespace becomes a single underscore. -/
def collapseWs : List Char → List Char
  | [] => []
  | [c] => if pyIsSpace c then ['_'] else [c]
  | c1 :: c2 :: cs =>
    if pyIsSpace c1 && pyIsSpace c2 then collapseWs (c2 :: cs)
    else (if pyIsSpace c1 then '_' else c1) :: collapseWs (c2 :: cs)

/-- One character under `re.sub(r"[^\w\s\-\.]", "_", ·)`: anything that is
neither a word character, whitespace, hyphen nor period becomes `_`. -/
def replChar (c : Char) : Char :=
  if !(pyIsWord c || pyIsSpace c || c = '-' || c = '.') then '_' else c

/-- Function `sanitize_filename` (segmenta_kml.py, lines 27-34): strip; replace every
character that is neither word, whitespace, hyphen nor period by `_`; collapse
whitespace runs to a single `_`; truncate to 180 characters; fall back to
"setor" when the result is empty. -/
def sanitize_filename (name : String) : String :=
  let s2 := (pyStrip name).toList.map replChar
  let s4 := String.mk ((collapseWs s2).take 180)
  if s4 = "" then "setor" else s4

/-- Function `has_geometry` (segmenta_kml.py, lines 48-57): the disjunction of the six
`find` probes, in source order.  `.//kml:T` probes test for a descendant with
tag `T`; `.//kml:MultiGeometry/kml:T` probes test for a descendant
`MultiGeometry` having a direct child with tag `T`. -/
def has_geometry (pm : Element) : Bool :=
  (descendants pm).any (fun e => e.tag = "Polygon") ||
  (descendants pm).any (fun e =>
    e.tag = "MultiGeometry" && e.children.any (fun c => c.tag = "Polygon")) ||
  (descendants pm).any (fun e =>
    e.tag = "MultiGeometry" && e.children.any (fun c => c.tag = "LineString")) ||
  (descendants pm).any (fun e =>
    e.tag = "MultiGeometry" && e.children.any (fun c => c.tag = "Point")) ||
  (descendants pm).any (fun e => e.tag = "LineString") ||
  (descendants pm).any (fun e => e.tag = "Point")

/-- The fixed priority key set of `preferred_name`. -/
def preferred_keys : List String :=
  ["CD_GEOCODI", "CD_GEOCOD", "SETOR", "SETOR_CENSITARIO",
   "NOME", "NAME", "NM_SETOR", "CD_SETOR", "GEOCODIGO", "CODIGO"]

/-- Body of the `Data` loop of `preferred_name` (lines 67-72): the key is the
upper-cased `name` attribute (empty if absent); the value is the stripped text
of the `value` child, empty if the child is absent or its text is falsy; the
entry matches when the key is in the key set and the value is non-empty. -/
def matchEntry (d : Element) : Option String :=
  let key := pyUpper ((getAttr d "name").getD "")
  let val := match findChild d "value" with
    | some vel => match vel.text with
      | some t => if t = "" then "" else pyStrip t
      | none => ""
    | none => ""
  if preferred_keys.contains key && val ≠ "" then some val else none

/-- The `Data` scan of `preferred_name`: first matching entry wins (the
`return` inside the loop). -/
def scanData : List Element → Option String
  | [] => none
  | d :: ds => match matchEntry d with
    | some v => some v
    | none => scanData ds

/-- Body of the `SimpleData` loop (lines 75-79): upper-cased `name` attribute,
stripped own text (empty if `None`). -/
def matchSimple (sd : Element) : Option String :=
  let key := pyUpper ((getAttr sd "name").getD "")
  let val := pyStrip ((sd.text).getD "")
  if preferred_keys.contains key && val ≠ "" then some val else none

/-- The `SimpleData` scan inside one `SchemaData`. -/
def scanSimple : List Element → Option String
  | [] => none
  | s :: ss => match matchSimple s with
    | some v => some v
    | none => scanSimple ss

/-- The `SchemaData` scan (lines 74-79): for each `SchemaData` descendant, scan
its `SimpleData` descendants; first match wins. -/
def scanSchema : List Element → Option String
  | [] => none
  | sd :: rest => match scanSimple (findAllDesc sd "SimpleData") with
    | some v => some v
    | none => scanSchema rest

/-- Function `preferred_name` (segmenta_kml.py, lines 59-84): scan `ExtendedData`'s
`Data` entries, then its `SchemaData`/`SimpleData` entries; otherwise fall back
to the `name` child's text when that text is truthy (non-empty before
stripping), returning it stripped; otherwise the constant "setor". -/
def preferred_name (pm : Element) : String :=
  let fromExt : Option String :=
    match findChild pm "ExtendedData" with
    | some ext =>
      (match scanData (findAllDesc ext "Data") with
       | some v => some v
       | none => scanSchema (findAllDesc ext "SchemaData"))
    | none => none
  match fromExt with
  | some v => v
  | none =>
    match findChild pm "name" with
    | some nel =>
      match nel.text with
      | some t => if t = "" then "setor" else pyStrip t
      | none => "setor"
    | none => "setor"

mutual
/-- Structural deep copy, modelling `ET.fromstring(ET.tostring(pm))`
(line 110): a fresh tree sharing no mutable node with the original. -/
def deepCopy : Element → Element
  | .mk t a x cs => .mk t a x (copyList cs)
/-- Deep copy of a child list. -/
def copyList : List Element → List Element
  | [] => []
  | e :: es => deepCopy e :: copyList es
end

/-- Assign `e.text = nm`, leaving tag, attributes and children unchanged. -/
def setText (e : Element) (nm : String) : Element :=
  match e with
  | .mk t a _ cs => .mk t a (some nm) cs

/-- Set the text of the first child tagged `name` (the element
`pm_copy.find("kml:name")` returns). -/
def replaceFirstName : List Element → String → List Element
  | [], _ => []
  | e :: es, nm =>
    if e.tag = "name" then setText e nm :: es else e :: replaceFirstName es nm

/-- Lines 113-116: ensure the fragment's `name` child exists and carries the
resolved name — overwrite the first `name` child's text, or append a fresh
`name` element (ET.SubElement appends at the end) and set its text. -/
def setNameText (pm : Element) (nm : String) : Element :=
  match pm with
  | .mk t a x cs =>
    if cs.any (fun c => c.tag = "name") then .mk t a x (replaceFirstName cs nm)
    else .mk t a x (cs ++ [Element.mk "name" [] (some nm) []])

/-- The Output Fragment of one feature (lines 105-116): a deep copy of the
feature whose plain label is set to the resolved display name. -/
def outputFragment (pm : Element) : Element :=
  setNameText (deepCopy pm) (preferred_name pm)

/-- Serialized attribute list: ` k="v"` for each attribute, in order. -/
def attrsString : List (String × String) → String
  | [] => ""
  | kv :: rest => " " ++ kv.1 ++ "=\"" ++ kv.2 ++ "\"" ++ attrsString rest

mutual
/-- Structural serializer standing in for `ET.tostring(·, encoding="unicode")`:
the claims use it only as the serialization step between the fragment and the
written file content. -/
def tostring : Element → String
  | .mk t a x cs =>
    "<" ++ t ++ attrsString a ++ ">" ++ x.getD "" ++ tostringList cs ++ "</" ++ t ++ ">"
/-- Serialize a list of elements in order. -/
def tostringList : List Element → String
  | [] => ""
  | e :: es => tostring e ++ tostringList es
end

/-- Function `kml_header` (lines 36-43): XML declaration plus the `kml` root open tag
with its three namespace declarations. -/
def kml_header : String :=
  "<?xml version=\"1.0\" encoding=\"UTF-8\"?>\n<kml xmlns=\"http://www.opengis.net/kml/2.2\" xmlns:gx=\"http://www.google.com/kml/ext/2.2\" xmlns:kml=\"http://www.opengis.net/kml/2.2\" xmlns:atom=\"http://www.w3.org/2005/Atom\">\n"

/-- Function `wrap_document` (lines 45-46): header, a `Document` container holding the
fragment verbatim, and the matching closing tags. -/
def wrap_document (inner : String) : String :=
  kml_header ++ "<Document>\n" ++ inner ++ "\n</Document>\n</kml>\n"

/-- Models `root.findall(".//kml:Placemark")` (line 98). -/
def placemarksOf (root : Element) : List Element :=
  findAllDesc root "Placemark"

/-- Writing a file at `p`: overwrite the existing entry or append a new one.
The file store is an association list with unique paths. -/
def writeFile (fs : List (String × String)) (p c : String) : List (String × String) :=
  if fs.any (fun kv => kv.1 = p) then fs.map (fun kv => if kv.1 = p then (p, c) else kv)
  else fs ++ [(p, c)]

/-- Models `os.path.join(outdir, sanitize_filename(name) + ".kml")` (lines 106-107),
for a plain directory path. -/
def outPath (outdir : String) (pm : Element) : String :=
  outdir ++ "/" ++ sanitize_filename (preferred_name pm) ++ ".kml"

/-- The content written for one feature (lines 119-123): the wrapped
serialization of its Output Fragment. -/
def outContent (pm : Element) : String :=
  wrap_document (tostring (outputFragment pm))

/-- The orchestrator loop (lines 101-127) over the candidate features: skip
features without geometry; otherwise write the wrapped fragment and count it.
The first component returns each source feature as it stands after its
iteration: the loop reads `pm` and mutates only the deep copy, so each node is
passed through unchanged — that is the content of the frame claim. -/
def segRun (outdir : String) : List Element → List (String × String) → Nat →
    List Element × List (String × String) × Nat
  | [], fs, n => ([], fs, n)
  | pm :: rest, fs, n =>
    if has_geometry pm then
      let r := segRun outdir rest (writeFile fs (outPath outdir pm) (outContent pm)) (n + 1)
      (pm :: r.1, r.2)
    else
      let r := segRun outdir rest fs n
      (pm :: r.1, r.2)

/-- The per-document part of `segment_kml`: run the loop over all Placemark
descendants of the parsed root, starting from the file store `fs`. -/
def segmentDoc (root : Element) (outdir : String) (fs : List (String × String)) :
    List (String × String) × Nat :=
  (segRun outdir (placemarksOf root) fs 0).2

/-- The filesystem the orchestrator touches: regular files (path ↦ content)
and the set of existing directories.  Input paths are modelled as regular
files; `os.path.exists` is modelled over them. -/
structure World where
  files : List (String × String)
  dirs : List String

/-- The two abort causes the claims mention: `FileNotFoundError` (line 88) and
`xml.etree.ElementTree.ParseError` (line 95). -/
inductive SegError where
  | notFound
  | parseError

/-- Lookup of a file's content by path. -/
def lookupFile (files : List (String × String)) (p : String) : Option String :=
  (files.find? (fun kv => kv.1 = p)).map (fun kv => kv.2)

/-- Models `os.makedirs(outdir, exist_ok=True)` (line 90): record the directory,
tolerating its prior existence. -/
def makeDirs (dirs : List String) (d : String) : List String :=
  if dirs.contains d then dirs else dirs ++ [d]

/-- Function `segment_kml` (lines 86-127) over the world model.  `parse` is the external
XML parsing collaborator (`ET.parse`), `none` meaning ill-formed content.  The
step order is the source's: existence check, directory creation, parse, loop.
Returns the final world and either the produced-file count or the abort
cause. -/
def segment_kml (parse : String → Option Element) (w : World) (input outdir : String) :
    World × Except SegError Nat :=
  match lookupFile w.files input with
  | none => (w, Except.error SegError.notFound)
  | some content =>
    let dirs1 := makeDirs w.dirs outdir
    match parse content with
    | none => ({ files := w.files, dirs := dirs1 }, Except.error SegError.parseError)
    | some root =>
      let r := segmentDoc root outdir w.files
      ({ files := r.1, dirs := dirs1 }, Except.ok r.2)

/-- Follows the spec's words for the Geometry Classifier, for comparison with
`has_geometry` (which is translated from the source): true iff the feature
directly contains a polygon, line or point shape, or contains a multi-geometry
container that itself directly contains at least one of them; shapes nested
more than one level deep are not recognized. -/
def spec_has_geometry (pm : Element) : Bool :=
  pm.children.any (fun e =>
    e.tag = "Polygon" || e.tag = "LineString" || e.tag = "Point") ||
  pm.children.any (fun e => e.tag = "MultiGeometry" &&
    e.children.any (fun c =>
      c.tag = "Polygon" || c.tag = "LineString" || c.tag = "Point"))

/-- The feature's plain label: the text of its first `name` child. -/
def nameText (pm : Element) : Option String :=
  (findChild pm "name").bind Element.text

/-- The feature's style reference: its first `styleUrl` child. -/
def styleUrlOf (pm : Element) : Option Element :=
  findChild pm "styleUrl"

/-- The Output Document as a tree: `wrap_document` wraps the serialized
fragment in a `Document` inside the `kml` root (the namespace declarations are
attributes of the serialized root); parsing the written file therefore yields
this tree, by the serialize/parse round-trip of the XML library. -/
def outputDocumentTree (pm : Element) : Element :=
  Element.mk "kml" [] none [Element.mk "Document" [] none [outputFragment pm]]

/-! ### Concrete elements used by witnesses and counterexamples -/

/-- A `Point` shape with coordinates. -/
def ptEl : Element := .mk "Point" [] none [.mk "coordinates" [] (some "0,0") []]

/-- A feature whose only shape sits two levels deep: a multi-geometry inside a
multi-geometry holding a point. -/
def pmDeep : Element := .mk "Placemark" [] none
  [.mk "MultiGeometry" [] none [.mk "MultiGeometry" [] none [ptEl]]]

/-- A feature with no structured metadata whose plain label is whitespace. -/
def pmWs : Element := .mk "Placemark" [] none
  [.mk "name" [] (some "   ") [], ptEl]

/-- The `CD_GEOCODI = "355030822"` metadata block. -/
def extGeo : Element := .mk "ExtendedData" [] none
  [.mk "Data" [("name", "CD_GEOCODI")] none [.mk "value" [] (some "355030822") []]]

/-- A feature with both a matching metadata entry and a plain label. -/
def pmGeo : Element := .mk "Placemark" [] none
  [.mk "name" [] (some "Setor X") [], extGeo, ptEl]

/-! ### Helper lemmas about the tree model -/

theorem mem_descList_iff (d : Element) (l : List Element) :
    d ∈ descList l ↔ ∃ r, r ∈ l ∧ (d = r ∨ d ∈ descendants r) := by
  induction l with
  | nil =>
    have h0 : descList ([] : List Element) = [] := rfl
    rw [h0]
    constructor
    · intro h
      cases h
    · rintro ⟨r, hr, _⟩
      cases hr
  | cons e es ih =>
    have h0 : descList (e :: es) = e :: (descendants e ++ descList es) := rfl
    rw [h0]
    constructor
    · intro h
      rcases List.mem_cons.mp h with h1 | h2
      · exact ⟨e, List.mem_cons_self e es, Or.inl h1⟩
      · rcases List.mem_append.mp h2 with h3 | h4
        · exact ⟨e, List.mem_cons_self e es, Or.inr h3⟩
        · obtain ⟨r, hr, hc⟩ := ih.mp h4
          exact ⟨r, List.mem_cons_of_mem e hr, hc⟩
    · rintro ⟨r, hr, hc⟩
      rcases List.mem_cons.mp hr with h1 | h2
      · subst h1
        rcases hc with hc1 | hc2
        · exact List.mem_cons.mpr (Or.inl hc1)
        · exact List.mem_cons.mpr (Or.inr (List.mem_append.mpr (Or.inl hc2)))
      · have hmem := ih.mpr ⟨r, h2, hc⟩
        exact List.mem_cons.mpr (Or.inr (List.mem_append.mpr (Or.inr hmem)))

theorem child_mem_descendants : (e : Element) → ∀ d c, d ∈ descendants e →
    c ∈ d.children → c ∈ descendants e
  | .mk t a x cs => by
    intro d c hd hc
    have hds : descendants (Element.mk t a x cs) = descList cs := rfl
    rw [hds] at hd ⊢
    rw [mem_descList_iff] at hd ⊢
    obtain ⟨r, hr, hcase⟩ := hd
    rcases hcase with hEq | hIn
    · subst hEq
      refine ⟨d, hr, Or.inr ?_⟩
      obtain ⟨t2, a2, x2, cs2⟩ := d
      have hds2 : descendants (Element.mk t2 a2 x2 cs2) = descList cs2 := rfl
      rw [hds2, mem_descList_iff]
      exact ⟨c, hc, Or.inl rfl⟩
    · have hlt : sizeOf r < sizeOf cs := List.sizeOf_lt_of_mem hr
      exact ⟨r, hr, Or.inr (child_mem_descendants r d c hIn hc)⟩
  termination_by e => sizeOf e
  decreasing_by
    simp only [Element.mk.sizeOf_spec]
    omega

/-! ### C1 — Geometry Classifier -/

/-- C1 counterexample: for `pmDeep`, whose only shape is a point nested inside
a multi-geometry within a multi-geometry (more than one level deep), the
claim asserts the classifier returns false (as the spec-literal
`spec_has_geometry` does), but the source classifier returns true: the
`.//`-probes of `has_geometry` search descendants at any depth. -/
theorem c1_counterexample :
    spec_has_geometry pmDeep = false ∧ has_geometry pmDeep = true := by
  constructor
  · decide
  · decide

/-- C1 (amended): the Geometry Classifier returns true if and only if the
feature contains a polygon, line, or point shape at ANY descendant depth; the
multi-geometry probes are subsumed by the any-depth probes, so shapes nested
more than one level deep (e.g., inside a multi-geometry within a
multi-geometry) ARE recognized.  In particular a feature with a single direct
polygon, line, or point still yields true. -/
theorem c1_geometry_classifier_any_depth (pm : Element) :
    has_geometry pm = (descendants pm).any (fun e =>
      e.tag = "Polygon" || e.tag = "LineString" || e.tag = "Point") := by
  apply Bool.eq_iff_iff.mpr
  simp only [has_geometry, List.any_eq_true, Bool.or_eq_true, Bool.and_eq_true,
    decide_eq_true_eq]
  constructor
  · rintro (((((⟨e, he, ht⟩ | ⟨e, he, ht, c, hc, hct⟩) | ⟨e, he, ht, c, hc, hct⟩) |
      ⟨e, he, ht, c, hc, hct⟩) | ⟨e, he, ht⟩) | ⟨e, he, ht⟩)
    · exact ⟨e, he, Or.inl (Or.inl ht)⟩
    · exact ⟨c, child_mem_descendants pm e c he hc, Or.inl (Or.inl hct)⟩
    · exact ⟨c, child_mem_descendants pm e c he hc, Or.inl (Or.inr hct)⟩
    · exact ⟨c, child_mem_descendants pm e c he hc, Or.inr hct⟩
    · exact ⟨e, he, Or.inl (Or.inr ht)⟩
    · exact ⟨e, he, Or.inr ht⟩
  · rintro ⟨e, he, (ht | ht) | ht⟩
    · exact Or.inl (Or.inl (Or.inl (Or.inl (Or.inl ⟨e, he, ht⟩))))
    · exact Or.inl (Or.inr ⟨e, he, ht⟩)
    · exact Or.inr ⟨e, he, ht⟩

/-! ### C2 — Name Resolver fallback -/

/-- C2 counterexample: `pmWs` has no structured metadata and a plain label
consisting only of whitespace.  The source checks the label's truthiness
BEFORE trimming (`if name_el is not None and name_el.text`), so it returns the
stripped label — the empty string — not "setor", refuting both the
"non-empty display string" contract and the "resolves to setor" clause. -/
theorem c2_counterexample :
    preferred_name pmWs = "" ∧ preferred_name pmWs ≠ "setor" := by
  constructor
  · decide
  · decide

/-- C2 (amended): when no structured-metadata entry matches, the resolver
falls back to the plain label if its text is present and non-empty BEFORE
trimming, returning the trimmed text — which is empty when the label is
whitespace-only; the constant "setor" is returned only when the label element
is absent or its text is `None` or the empty string. -/
theorem c2_name_resolver_fallback (pm : Element)
    (hext : ∀ e, findChild pm "ExtendedData" = some e →
      scanData (findAllDesc e "Data") = none ∧
      scanSchema (findAllDesc e "SchemaData") = none) :
    (findChild pm "name" = none → preferred_name pm = "setor") ∧
    (∀ nel, findChild pm "name" = some nel → nel.text = none →
      preferred_name pm = "setor") ∧
    (∀ nel t, findChild pm "name" = some nel → nel.text = some t → t ≠ "" →
      preferred_name pm = pyStrip t) := by
  have hfe : (match findChild pm "ExtendedData" with
      | some ext =>
        (match scanData (findAllDesc ext "Data") with
         | some v => some v
         | none => scanSchema (findAllDesc ext "SchemaData"))
      | none => none) = (none : Option String) := by
    cases h : findChild pm "ExtendedData" with
    | none => rfl
    | some e =>
      obtain ⟨h1, h2⟩ := hext e h
      simp [h1, h2]
  refine ⟨?_, ?_, ?_⟩
  · intro hn
    simp only [preferred_name, hfe, hn]
  · intro nel hn ht
    simp only [preferred_name, hfe, hn, ht]
  · intro nel t hn ht htne
    simp only [preferred_name, hfe, hn, ht]
    simp [htne]

/-- C2 witness: applying the amended fallback to the concrete whitespace-label
feature yields the stripped (empty) label. -/
theorem c2_witness : preferred_name pmWs = pyStrip "   " := by
  have hext : ∀ e, findChild pmWs "ExtendedData" = some e →
      scanData (findAllDesc e "Data") = none ∧
      scanSchema (findAllDesc e "SchemaData") = none := by
    intro e he
    rw [show findChild pmWs "ExtendedData" = none from rfl] at he
    cases he
  exact (c2_name_resolver_fallback pmWs hext).2.2
    (Element.mk "name" [] (some "   ") []) "   " rfl rfl (by decide)

/-! ### C3 — Identifier Sanitizer -/

theorem mem_collapseWs : (l : List Char) → ∀ c ∈ collapseWs l,
    c = '_' ∨ (c ∈ l ∧ pyIsSpace c = false)
  | [] => by
    intro c hc
    simp only [collapseWs] at hc
    cases hc
  | [a] => by
    intro c hc
    simp only [collapseWs] at hc
    by_cases h : pyIsSpace a = true
    · rw [if_pos h] at hc
      exact Or.inl (List.mem_singleton.mp hc)
    · rw [if_neg h] at hc
      have hca : c = a := List.mem_singleton.mp hc
      subst hca
      exact Or.inr ⟨List.mem_singleton.mpr rfl, Bool.eq_false_iff.mpr h⟩
  | c1 :: c2 :: cs => by
    intro c hc
    simp only [collapseWs] at hc
    by_cases h12 : (pyIsSpace c1 && pyIsSpace c2) = true
    · rw [if_pos h12] at hc
      rcases mem_collapseWs (c2 :: cs) c hc with h | ⟨hm, hs⟩
      · exact Or.inl h
      · exact Or.inr ⟨List.mem_cons_of_mem c1 hm, hs⟩
    · rw [if_neg h12] at hc
      rcases List.mem_cons.mp hc with hhead | htail
      · by_cases h1 : pyIsSpace c1 = true
        · rw [if_pos h1] at hhead
          exact Or.inl hhead
        · rw [if_neg h1] at hhead
          rw [hhead]
          exact Or.inr ⟨List.mem_cons_self c1 (c2 :: cs), Bool.eq_false_iff.mpr h1⟩
      · rcases mem_collapseWs (c2 :: cs) c htail with h | ⟨hm, hs⟩
        · exact Or.inl h
        · exact Or.inr ⟨List.mem_cons_of_mem c1 hm, hs⟩

theorem replChar_good (c0 : Char) (hs : pyIsSpace (replChar c0) = false) :
    (pyIsWord (replChar c0) || replChar c0 = '-' || replChar c0 = '.') = true := by
  by_cases hw : (pyIsWord c0 || pyIsSpace c0 || c0 = '-' || c0 = '.') = true
  · have h1 : replChar c0 = c0 := by
      simp [replChar, hw]
    rw [h1] at hs ⊢
    simp only [Bool.or_eq_true, decide_eq_true_eq] at hw ⊢
    rcases hw with ((hw | hw) | hw) | hw
    · exact Or.inl (Or.inl hw)
    · rw [hw] at hs
      cases hs
    · exact Or.inl (Or.inr hw)
    · exact Or.inr hw
  · have hcond : (pyIsWord c0 || pyIsSpace c0 || c0 = '-' || c0 = '.') = false :=
      Bool.eq_false_iff.mpr hw
    have h1 : replChar c0 = '_' := by
      simp [replChar, hcond]
    rw [h1]
    decide

theorem pyStrip_of_all_space (s : String) (h : s.toList.all pyIsSpace = true) :
    pyStrip s = "" := by
  have hall := List.all_eq_true.mp h
  have h1 : s.toList.dropWhile pyIsSpace = [] :=
    List.dropWhile_eq_nil_iff.mpr hall
  simp only [pyStrip, h1]
  rfl

/-- C3 counterexample: the all-special-character input "#" sanitizes to "_",
not to the constant "setor" the claim asserts: the regex replaces each special
character by an underscore, and underscores survive to a non-empty result. -/
theorem c3_counterexample :
    sanitize_filename "#" = "_" ∧ sanitize_filename "#" ≠ "setor" := by
  constructor
  · decide
  · decide

/-- C3 (amended): the Identifier Sanitizer is total; its output contains only
word characters (alphanumeric or underscore), hyphen, or period, has length at
most 180, and is never empty; empty and whitespace-only inputs yield "setor".
All-special-character inputs, however, yield a string of underscores (one per
character), not "setor". -/
theorem c3_sanitize_properties (s : String) :
    (sanitize_filename s).toList.all (fun c => pyIsWord c || c = '-' || c = '.') = true ∧
    (sanitize_filename s).length ≤ 180 ∧
    sanitize_filename s ≠ "" ∧
    (s.toList.all pyIsSpace = true → sanitize_filename s = "setor") := by
  by_cases h4 : String.mk ((collapseWs ((pyStrip s).toList.map replChar)).take 180) = ""
  · have hres : sanitize_filename s = "setor" := by
      simp only [sanitize_filename]
      rw [if_pos h4]
    rw [hres]
    exact ⟨by decide, by decide, by decide, fun _ => rfl⟩
  · have hres : sanitize_filename s =
        String.mk ((collapseWs ((pyStrip s).toList.map replChar)).take 180) := by
      simp only [sanitize_filename]
      rw [if_neg h4]
    refine ⟨?_, ?_, ?_, ?_⟩
    · rw [hres]
      apply List.all_eq_true.mpr
      intro c hc
      have hc2 : c ∈ (String.mk ((collapseWs ((pyStrip s).toList.map replChar)).take 180)).toList := hc
      have hc3 : c ∈ collapseWs ((pyStrip s).toList.map replChar) :=
        List.take_subset 180 _ hc2
      rcases mem_collapseWs _ c hc3 with h | ⟨hm, hs⟩
      · subst h
        decide
      · obtain ⟨c0, _, hrepl⟩ := List.mem_map.mp hm
        subst hrepl
        exact replChar_good c0 hs
    · rw [hres]
      have hlen : (String.mk ((collapseWs ((pyStrip s).toList.map replChar)).take 180)).length =
          ((collapseWs ((pyStrip s).toList.map replChar)).take 180).length := rfl
      rw [hlen]
      exact List.length_take_le 180 _
    · rw [hres]
      exact h4
    · intro hall
      exfalso
      apply h4
      rw [pyStrip_of_all_space s hall]
      rfl

/-- C3 witness: the whitespace-only input "  " yields "setor". -/
theorem c3_witness : sanitize_filename "  " = "setor" :=
  (c3_sanitize_properties "  ").2.2.2 (by decide)

/-! ### C5 — Name Resolver priority -/

/-- C5: if any `Data` entry of the feature's `ExtendedData` matches (its
upper-cased key is in the priority key set and its trimmed value is
non-empty), the resolver returns that scan's result regardless of the plain
label — metadata wins over label — and the scan returns the FIRST matching
entry in document order. -/
theorem c5_metadata_wins :
    (∀ pm ext v, findChild pm "ExtendedData" = some ext →
      scanData (findAllDesc ext "Data") = some v → preferred_name pm = v) ∧
    (∀ d ds v, matchEntry d = some v → scanData (d :: ds) = some v) := by
  constructor
  · intro pm ext v h1 h2
    simp only [preferred_name, h1, h2]
  · intro d ds v h
    simp only [scanData, h]

/-- C5 witness: the feature with metadata entry `CD_GEOCODI = "355030822"` and
plain label "Setor X" resolves to "355030822". -/
theorem c5_witness : preferred_name pmGeo = "355030822" :=
  c5_metadata_wins.1 pmGeo extGeo "355030822" rfl (by decide)

/-! ### C10 — malformed metadata entries are skipped -/

/-- C10: the resolver's scanning loops are total over malformed entries: a
`Data` entry with no `name` attribute, with no `value` child, or whose value
text trims to empty is skipped (treated as a non-match) and the scan proceeds
with the remaining entries; likewise for `SimpleData` entries with no `name`
attribute or whitespace-only text. -/
theorem c10_malformed_metadata_skipped :
    (∀ d rest, getAttr d "name" = none → scanData (d :: rest) = scanData rest) ∧
    (∀ d rest, findChild d "value" = none → scanData (d :: rest) = scanData rest) ∧
    (∀ d rest vel t, findChild d "value" = some vel → vel.text = some t →
      pyStrip t = "" → scanData (d :: rest) = scanData rest) ∧
    (∀ sd rest, getAttr sd "name" = none → scanSimple (sd :: rest) = scanSimple rest) ∧
    (∀ sd rest t, sd.text = some t → pyStrip t = "" →
      scanSimple (sd :: rest) = scanSimple rest) := by
  have hkey : pyUpper "" ∉ preferred_keys := by
    decide
  refine ⟨?_, ?_, ?_, ?_, ?_⟩
  · intro d rest h
    have hm : matchEntry d = none := by
      simp [matchEntry, h, hkey]
    simp [scanData, hm]
  · intro d rest h
    have hm : matchEntry d = none := by
      simp [matchEntry, h]
    simp [scanData, hm]
  · intro d rest vel t h1 h2 h3
    have hval : (if t = "" then "" else pyStrip t) = "" := by
      by_cases ht : t = ""
      · rw [if_pos ht]
      · rw [if_neg ht]
        exact h3
    have hm : matchEntry d = none := by
      simp [matchEntry, h1, h2, hval]
    simp [scanData, hm]
  · intro sd rest h
    have hm : matchSimple sd = none := by
      simp [matchSimple, h, hkey]
    simp [scanSimple, hm]
  · intro sd rest t h1 h2
    have hm : matchSimple sd = none := by
      simp [matchSimple, h1, h2]
    simp [scanSimple, hm]

/-- A `Data` entry with a value but no key attribute. -/
def dataNoKey : Element := .mk "Data" [] none [.mk "value" [] (some "123") []]

/-- A well-formed `Data` entry `SETOR = "42"`. -/
def dataGood : Element := .mk "Data" [("name", "SETOR")] none
  [.mk "value" [] (some "42") []]

/-- C10 witness: a keyless entry in front of a well-formed one is skipped and
resolution proceeds to the well-formed entry. -/
theorem c10_witness :
    scanData [dataNoKey, dataGood] = scanData [dataGood] ∧
    scanData [dataGood] = some "42" :=
  ⟨c10_malformed_metadata_skipped.1 dataNoKey [dataGood] rfl, by decide⟩

/-! ### C7 — the source tree is never mutated -/

mutual
theorem deepCopy_eq : (e : Element) → deepCopy e = e
  | .mk t a x cs => by
    rw [show deepCopy (Element.mk t a x cs) = Element.mk t a x (copyList cs) from rfl,
      copyList_eq cs]
theorem copyList_eq : (l : List Element) → copyList l = l
  | [] => rfl
  | e :: es => by
    rw [show copyList (e :: es) = deepCopy e :: copyList es from rfl,
      deepCopy_eq e, copyList_eq es]
end

theorem segRun_fst (outdir : String) : ∀ (pms : List Element)
    (fs : List (String × String)) (n : Nat), (segRun outdir pms fs n).1 = pms := by
  intro pms
  induction pms with
  | nil =>
    intro fs n
    rfl
  | cons pm rest ih =>
    intro fs n
    by_cases h : has_geometry pm = true
    · simp [segRun, h, ih]
    · simp [segRun, h, ih]

/-- C7: the orchestrator never mutates the parsed source tree.  The loop hands
every source feature node back unchanged after its iteration; the Output
Fragment is built from a deep copy — a structurally equal but freshly
constructed tree — and the label mutation (`setNameText`) is applied to that
copy only. -/
theorem c7_source_not_mutated :
    (∀ outdir pms fs n, (segRun outdir pms fs n).1 = pms) ∧
    (∀ e, deepCopy e = e) ∧
    (∀ pm, outputFragment pm = setNameText pm (preferred_name pm)) := by
  refine ⟨segRun_fst, deepCopy_eq, ?_⟩
  intro pm
  rw [outputFragment, deepCopy_eq pm]

/-! ### C4 — document count and name collisions -/

theorem segRun_count (outdir : String) : ∀ (pms : List Element)
    (fs : List (String × String)) (n : Nat),
    (segRun outdir pms fs n).2.2 = n + (pms.filter has_geometry).length := by
  intro pms
  induction pms with
  | nil =>
    intro fs n
    simp [segRun]
  | cons pm rest ih =>
    intro fs n
    by_cases h : has_geometry pm = true
    · rw [List.filter_cons_of_pos h]
      simp only [segRun, h, if_true, ih, List.length_cons]
      omega
    · rw [List.filter_cons_of_neg (by simp [h])]
      simp only [segRun, h, if_false]
      exact ih fs n

/-- C4: the orchestrator returns the number of features passing the Geometry
Classifier — one document written per qualifying feature — and when two
qualifying features collide on their sanitized name, the run leaves exactly
one file at the shared path, holding the feature processed last in document
order, while the returned count is still 2. -/
theorem c4_count_and_collision :
    (∀ root outdir fs, (segmentDoc root outdir fs).2 =
      ((placemarksOf root).filter has_geometry).length) ∧
    (∀ f1 f2 outdir, has_geometry f1 = true → has_geometry f2 = true →
      sanitize_filename (preferred_name f1) = sanitize_filename (preferred_name f2) →
      (segRun outdir [f1, f2] [] 0).2.1 = [(outPath outdir f2, outContent f2)] ∧
      (segRun outdir [f1, f2] [] 0).2.2 = 2) := by
  constructor
  · intro root outdir fs
    rw [segmentDoc, segRun_count]
    omega
  · intro f1 f2 outdir h1 h2 hsan
    have hpath : outPath outdir f1 = outPath outdir f2 := by
      simp only [outPath, hsan]
    constructor
    · simp only [segRun, h1, h2, if_true, hpath]
      simp [writeFile]
    · simp only [segRun, h1, h2, if_true]

/-- A qualifying feature whose plain label "001" is its resolved name. -/
def pmLbl001 : Element := .mk "Placemark" [] none
  [.mk "name" [] (some "001") [], ptEl]

/-- A distinct qualifying feature resolving to the same sanitized name "001"
via metadata key `SETOR`. -/
def pmSetor001 : Element := .mk "Placemark" [] none
  [.mk "ExtendedData" [] none
    [.mk "Data" [("name", "SETOR")] none [.mk "value" [] (some "001") []]], ptEl]

/-- C4 witness: the concrete two-feature collision run leaves one file at
"out/001.kml" holding the second feature's document, and the count is 2. -/
theorem c4_witness :
    (segRun "out" [pmLbl001, pmSetor001] [] 0).2.1 =
      [("out/001.kml", outContent pmSetor001)] ∧
    (segRun "out" [pmLbl001, pmSetor001] [] 0).2.2 = 2 := by
  have h := c4_count_and_collision.2 pmLbl001 pmSetor001 "out"
    (by decide) (by decide) (by decide)
  have hp : outPath "out" pmSetor001 = "out/001.kml" := by decide
  exact ⟨hp ▸ h.1, h.2⟩

/-! ### C8 — missing input aborts before any output -/

/-- C8: when the input path does not exist, the orchestrator fails immediately
with the not-found error and the filesystem is untouched: no output directory
is created and no file is written. -/
theorem c8_not_found_aborts_untouched (parse : String → Option Element)
    (w : World) (input outdir : String) (h : lookupFile w.files input = none) :
    segment_kml parse w input outdir = (w, Except.error SegError.notFound) ∧
    (segment_kml parse w input outdir).1.dirs = w.dirs ∧
    (segment_kml parse w input outdir).1.files = w.files := by
  have hmain : segment_kml parse w input outdir = (w, Except.error SegError.notFound) := by
    simp [segment_kml, h]
  exact ⟨hmain, by rw [hmain], by rw [hmain]⟩

/-- C8 witness: on an empty filesystem the run aborts with not-found and the
world is returned unchanged. -/
theorem c8_witness :
    segment_kml (fun _ => none) ⟨[], []⟩ "in.kml" "out" =
      (⟨[], []⟩, Except.error SegError.notFound) :=
  (c8_not_found_aborts_untouched (fun _ => none) ⟨[], []⟩ "in.kml" "out" rfl).1

/-! ### C9 — output directory exists before parsing -/

/-- C9: the output directory is created (recursively, tolerating prior
existence) before the input is parsed: when the input file exists but its
content is ill-formed, the run aborts with the parse error having written no
file, yet the output directory is present in the final world. -/
theorem c9_outdir_created_before_parse (parse : String → Option Element)
    (w : World) (input outdir c : String)
    (h1 : lookupFile w.files input = some c) (h2 : parse c = none) :
    segment_kml parse w input outdir =
      ({ files := w.files, dirs := makeDirs w.dirs outdir },
        Except.error SegError.parseError) ∧
    outdir ∈ (segment_kml parse w input outdir).1.dirs ∧
    (segment_kml parse w input outdir).1.files = w.files := by
  have hmain : segment_kml parse w input outdir =
      ({ files := w.files, dirs := makeDirs w.dirs outdir },
        Except.error SegError.parseError) := by
    simp [segment_kml, h1, h2]
  have hdir : outdir ∈ makeDirs w.dirs outdir := by
    simp only [makeDirs]
    by_cases hc : w.dirs.contains outdir = true
    · rw [if_pos hc]
      exact List.mem_of_elem_eq_true hc
    · rw [if_neg hc]
      exact List.mem_append.mpr (Or.inr (List.mem_singleton.mpr rfl))
  exact ⟨hmain, by rw [hmain]; exact hdir, by rw [hmain]⟩

/-- C9 witness: a world holding only an ill-formed input file ends with the
output directory created, the file store unchanged, and a parse error. -/
theorem c9_witness :
    segment_kml (fun _ => none) ⟨[("in.kml", "not kml")], []⟩ "in.kml" "out" =
      (⟨[("in.kml", "not kml")], ["out"]⟩, Except.error SegError.parseError) := by
  have h := (c9_outdir_created_before_parse (fun _ => none)
    ⟨[("in.kml", "not kml")], []⟩ "in.kml" "out" "not kml" rfl rfl).1
  exact h.trans rfl

/-! ### C6 — wrapping then parsing the Output Document -/

theorem tag_setText (e : Element) (nm : String) : (setText e nm).tag = e.tag := by
  obtain ⟨t, a, x, cs⟩ := e
  rfl

theorem text_setText (e : Element) (nm : String) : (setText e nm).text = some nm := by
  obtain ⟨t, a, x, cs⟩ := e
  rfl

theorem descendants_setText (e : Element) (nm : String) :
    descendants (setText e nm) = descendants e := by
  obtain ⟨t, a, x, cs⟩ := e
  rfl

theorem tag_setNameText (pm : Element) (nm : String) :
    (setNameText pm nm).tag = pm.tag := by
  obtain ⟨t, a, x, cs⟩ := pm
  simp only [setNameText]
  by_cases h : cs.any (fun c => c.tag = "name") = true
  · rw [if_pos h]
    rfl
  · rw [if_neg h]
    rfl

theorem descList_append (l1 l2 : List Element) :
    descList (l1 ++ l2) = descList l1 ++ descList l2 := by
  induction l1 with
  | nil => rfl
  | cons e es ih =>
    have h1 : descList ((e :: es) ++ l2) = e :: (descendants e ++ descList (es ++ l2)) := rfl
    have h2 : descList (e :: es) = e :: (descendants e ++ descList es) := rfl
    rw [h1, h2, ih]
    simp [List.append_assoc]

theorem descList_replaceFirstName_tags (cs : List Element) (nm : String) :
    (descList (replaceFirstName cs nm)).map Element.tag =
      (descList cs).map Element.tag := by
  induction cs with
  | nil => rfl
  | cons e es ih =>
    have hrw : replaceFirstName (e :: es) nm =
        if e.tag = "name" then setText e nm :: es else e :: replaceFirstName es nm := rfl
    by_cases he : e.tag = "name"
    · rw [hrw, if_pos he]
      have h1 : descList (setText e nm :: es) =
          setText e nm :: (descendants (setText e nm) ++ descList es) := rfl
      have h2 : descList (e :: es) = e :: (descendants e ++ descList es) := rfl
      rw [h1, h2, descendants_setText]
      simp [tag_setText]
    · rw [hrw, if_neg he]
      have h1 : descList (e :: replaceFirstName es nm) =
          e :: (descendants e ++ descList (replaceFirstName es nm)) := rfl
      have h2 : descList (e :: es) = e :: (descendants e ++ descList es) := rfl
      rw [h1, h2]
      simp only [List.map_cons, List.map_append, ih]

theorem desc_tags_setNameText (pm : Element) (nm : String) :
    (descendants (setNameText pm nm)).map Element.tag =
      (descendants pm).map Element.tag ∨
    (descendants (setNameText pm nm)).map Element.tag =
      (descendants pm).map Element.tag ++ ["name"] := by
  obtain ⟨t, a, x, cs⟩ := pm
  simp only [setNameText]
  by_cases h : cs.any (fun c => c.tag = "name") = true
  · rw [if_pos h]
    left
    exact descList_replaceFirstName_tags cs nm
  · rw [if_neg h]
    right
    have h1 : descendants (Element.mk t a x (cs ++ [Element.mk "name" [] (some nm) []])) =
        descList (cs ++ [Element.mk "name" [] (some nm) []]) := rfl
    rw [h1, descList_append]
    have h2 : descList [Element.mk "name" [] (some nm) []] =
        [Element.mk "name" [] (some nm) []] := rfl
    rw [h2, List.map_append]
    rfl

theorem replaceFirstName_filter_ne (cs : List Element) (nm : String) :
    (replaceFirstName cs nm).filter (fun c => c.tag ≠ "name") =
      cs.filter (fun c => c.tag ≠ "name") := by
  induction cs with
  | nil => rfl
  | cons e es ih =>
    have hrw : replaceFirstName (e :: es) nm =
        if e.tag = "name" then setText e nm :: es else e :: replaceFirstName es nm := rfl
    by_cases he : e.tag = "name"
    · rw [hrw, if_pos he]
      simp [List.filter_cons, tag_setText, he]
    · rw [hrw, if_neg he]
      simp [List.filter_cons, he]
      simpa using ih

theorem replaceFirstName_find_styleUrl (cs : List Element) (nm : String) :
    (replaceFirstName cs nm).find? (fun c => c.tag = "styleUrl") =
      cs.find? (fun c => c.tag = "styleUrl") := by
  induction cs with
  | nil => rfl
  | cons e es ih =>
    have hrw : replaceFirstName (e :: es) nm =
        if e.tag = "name" then setText e nm :: es else e :: replaceFirstName es nm := rfl
    by_cases he : e.tag = "name"
    · rw [hrw, if_pos he]
      have h1 : ¬((setText e nm).tag = "styleUrl") = true := by
        simp [tag_setText, he]
      have h2 : ¬(e.tag = "styleUrl") = true := by
        simp [he]
      rw [List.find?_cons_of_neg es (by simpa using h1),
        List.find?_cons_of_neg es (by simpa using h2)]
    · rw [hrw, if_neg he]
      by_cases hs : e.tag = "styleUrl"
      · rw [List.find?_cons_of_pos _ (by simpa using hs),
          List.find?_cons_of_pos _ (by simpa using hs)]
      · rw [List.find?_cons_of_neg _ (by simpa using hs),
          List.find?_cons_of_neg _ (by simpa using hs), ih]

theorem replaceFirstName_find_name (cs : List Element) (nm : String)
    (h : cs.any (fun c => c.tag = "name") = true) :
    ((replaceFirstName cs nm).find? (fun c => c.tag = "name")).bind Element.text =
      some nm := by
  induction cs with
  | nil => cases h
  | cons e es ih =>
    have hrw : replaceFirstName (e :: es) nm =
        if e.tag = "name" then setText e nm :: es else e :: replaceFirstName es nm := rfl
    by_cases he : e.tag = "name"
    · rw [hrw, if_pos he]
      rw [List.find?_cons_of_pos es (by simp [tag_setText, he])]
      simp [text_setText]
    · rw [hrw, if_neg he]
      rw [List.find?_cons_of_neg _ (by simpa using he)]
      apply ih
      have hh := h
      simp only [List.any_cons] at hh
      rcases (Bool.or_eq_true _ _).mp hh with h1 | h2
      · exact absurd (by simpa using h1) he
      · exact h2

theorem children_setNameText_filter (pm : Element) (nm : String) :
    (setNameText pm nm).children.filter (fun c => c.tag ≠ "name") =
      pm.children.filter (fun c => c.tag ≠ "name") := by
  obtain ⟨t, a, x, cs⟩ := pm
  simp only [setNameText]
  by_cases h : cs.any (fun c => c.tag = "name") = true
  · rw [if_pos h]
    exact replaceFirstName_filter_ne cs nm
  · rw [if_neg h]
    show (cs ++ [Element.mk "name" [] (some nm) []]).filter (fun c => c.tag ≠ "name") =
      cs.filter (fun c => c.tag ≠ "name")
    rw [List.filter_append]
    simp [Element.tag]

theorem styleUrl_setNameText (pm : Element) (nm : String) :
    styleUrlOf (setNameText pm nm) = styleUrlOf pm := by
  obtain ⟨t, a, x, cs⟩ := pm
  simp only [setNameText]
  by_cases h : cs.any (fun c => c.tag = "name") = true
  · rw [if_pos h]
    exact replaceFirstName_find_styleUrl cs nm
  · rw [if_neg h]
    show (cs ++ [Element.mk "name" [] (some nm) []]).find? (fun c => c.tag = "styleUrl") =
      cs.find? (fun c => c.tag = "styleUrl")
    rw [List.find?_append]
    have h1 : [Element.mk "name" [] (some nm) []].find? (fun c => c.tag = "styleUrl") =
        none := rfl
    rw [h1, Option.or_none]

theorem nameText_setNameText (pm : Element) (nm : String) :
    nameText (setNameText pm nm) = some nm := by
  obtain ⟨t, a, x, cs⟩ := pm
  simp only [setNameText]
  by_cases h : cs.any (fun c => c.tag = "name") = true
  · rw [if_pos h]
    exact replaceFirstName_find_name cs nm h
  · rw [if_neg h]
    show ((cs ++ [Element.mk "name" [] (some nm) []]).find?
      (fun c => c.tag = "name")).bind Element.text = some nm
    rw [List.find?_append]
    have h0 : cs.find? (fun c => c.tag = "name") = none := by
      apply List.find?_eq_none.mpr
      intro y hy
      have hfalse : cs.any (fun c => c.tag = "name") = false := Bool.eq_false_iff.mpr h
      exact List.any_eq_false.mp hfalse y hy
    rw [h0, Option.none_or]
    rfl

/-- C6 counterexample: for the feature with label "Setor X" and metadata
`CD_GEOCODI = "355030822"`, the orchestrator overwrites the copy's label with
the resolved name, so the feature inside the Output Document carries label
"355030822" — NOT structurally identical to the original's label "Setor X". -/
theorem c6_counterexample :
    nameText (outputFragment pmGeo) = some "355030822" ∧
    nameText pmGeo = some "Setor X" ∧
    nameText (outputFragment pmGeo) ≠ nameText pmGeo := by
  refine ⟨by decide, by decide, by decide⟩

/-- C6 (amended): wrapping a serialized Output Fragment and parsing the result
yields exactly one feature (provided the source feature contains no nested
feature), whose style reference and geometry content (all non-label children)
are structurally identical to the original source feature's; its label,
however, equals the RESOLVED display name, which coincides with the original
label only when resolution fell back to an already-trimmed plain label. -/
theorem c6_wrap_parse_roundtrip (pm : Element) (h1 : pm.tag = "Placemark")
    (h2 : ∀ d ∈ descendants pm, d.tag ≠ "Placemark") :
    placemarksOf (outputDocumentTree pm) = [outputFragment pm] ∧
    (outputFragment pm).children.filter (fun c => c.tag ≠ "name") =
      pm.children.filter (fun c => c.tag ≠ "name") ∧
    styleUrlOf (outputFragment pm) = styleUrlOf pm ∧
    nameText (outputFragment pm) = some (preferred_name pm) := by
  have hfrag : outputFragment pm = setNameText pm (preferred_name pm) := by
    rw [outputFragment, deepCopy_eq]
  refine ⟨?_, ?_, ?_, ?_⟩
  · have hdoc : descendants (outputDocumentTree pm) =
        Element.mk "Document" [] none [outputFragment pm] ::
          outputFragment pm :: descendants (outputFragment pm) := by
      have e1 : descendants (outputDocumentTree pm) =
          descList [Element.mk "Document" [] none [outputFragment pm]] := rfl
      have e2 : descList [Element.mk "Document" [] none [outputFragment pm]] =
          Element.mk "Document" [] none [outputFragment pm] ::
            (descendants (Element.mk "Document" [] none [outputFragment pm]) ++
              descList []) := rfl
      have e3 : descendants (Element.mk "Document" [] none [outputFragment pm]) =
          descList [outputFragment pm] := rfl
      have e4 : descList [outputFragment pm] =
          outputFragment pm :: (descendants (outputFragment pm) ++ descList []) := rfl
      have e5 : descList ([] : List Element) = [] := rfl
      rw [e1, e2, e3, e4, e5]
      simp
    have hdocTag : ¬((Element.mk "Document" [] none [outputFragment pm]).tag =
        "Placemark") := by
      simp [Element.tag]
    have hfragTag : (outputFragment pm).tag = "Placemark" := by
      rw [hfrag, tag_setNameText, h1]
    have hnil : List.filter (fun c => decide (c.tag = "Placemark"))
        (descendants (outputFragment pm)) = [] := by
      apply List.filter_eq_nil_iff.mpr
      intro a ha
      simp only [decide_eq_true_eq]
      have hmem : a.tag ∈ (descendants (outputFragment pm)).map Element.tag :=
        List.mem_map_of_mem Element.tag ha
      rw [hfrag] at hmem
      rcases desc_tags_setNameText pm (preferred_name pm) with hcase | hcase
      · rw [hcase] at hmem
        obtain ⟨d, hd, htag⟩ := List.mem_map.mp hmem
        rw [← htag]
        exact h2 d hd
      · rw [hcase] at hmem
        rcases List.mem_append.mp hmem with hm1 | hm2
        · obtain ⟨d, hd, htag⟩ := List.mem_map.mp hm1
          rw [← htag]
          exact h2 d hd
        · have hn : a.tag = "name" := List.mem_singleton.mp hm2
          rw [hn]
          decide
    rw [placemarksOf, findAllDesc, hdoc,
      List.filter_cons_of_neg (by simpa using hdocTag),
      List.filter_cons_of_pos (by simpa using hfragTag), hnil]
  · rw [hfrag]
    exact children_setNameText_filter pm (preferred_name pm)
  · rw [hfrag]
    exact styleUrl_setNameText pm (preferred_name pm)
  · rw [hfrag]
    exact nameText_setNameText pm (preferred_name pm)

/-- C6 witness: the amended round-trip instantiated at the concrete feature
`pmGeo`: exactly one feature in the output tree, non-label children and style
reference preserved, label equal to the resolved name. -/
theorem c6_witness :
    placemarksOf (outputDocumentTree pmGeo) = [outputFragment pmGeo] ∧
    (outputFragment pmGeo).children.filter (fun c => c.tag ≠ "name") =
      pmGeo.children.filter (fun c => c.tag ≠ "name") ∧
    styleUrlOf (outputFragment pmGeo) = styleUrlOf pmGeo ∧
    nameText (outputFragment pmGeo) = some (preferred_name pmGeo) :=
  c6_wrap_parse_roundtrip pmGeo rfl (by decide)
